import Mathlib

/-!
Verification of the capture-time resource tracking layer of
`renderdoc/driver/d3d12/d3d12_manager.h` (shallow embedding).

Machine integers (`D3D12_GPU_VIRTUAL_ADDRESS`, `UINT`, `UINT64`, `uint8_t`)
are modelled as `Nat`, with an explicit `% 256` where the source narrows a
value to `uint8_t`.  `ResourceId` is modelled as `Nat`, with `0` standing for
the default-constructed (zero) `ResourceId()`.  Pointers that the claims only
compare for identity are modelled as `Nat` tokens, `NULL` pointer parameters
as `Option`.
-/

abbrev ResourceId := Nat

/-! ## GPU address range tracker (`GPUAddressRange`, `GPUAddressRangeTracker`) -/

/-- `GPUAddressRange` from d3d12_manager.h:455-467: a half-open interval
`[start, end)` of GPU virtual addresses owned by resource `id`.  The C++
field `end` is spelled `end_` because `end` is a Lean keyword. -/
structure GPUAddressRange where
  start : Nat
  end_ : Nat
  id : ResourceId
deriving DecidableEq, Repr

instance : Inhabited GPUAddressRange := ⟨⟨0, 0, 0⟩⟩

/-- `GPUAddressRange::operator<(const D3D12_GPU_VIRTUAL_ADDRESS &o)`:
returns `true` iff `o < start`. -/
def GPUAddressRange.ltAddr (r : GPUAddressRange) (o : Nat) : Bool :=
  if o < r.start then true else false

/-- `std::lower_bound(addresses.begin(), addresses.end(), addr)` with the
comparator `GPUAddressRange.ltAddr`: on a range partitioned by the comparator
(every element satisfying `ltAddr · addr` before every element that does not,
which holds for every tracker state reachable through `AddTo`/`RemoveFrom`),
`std::lower_bound` returns the first position whose element does not satisfy
the comparator, which this linear formulation computes. -/
def lowerBound : List GPUAddressRange → Nat → Nat
  | [], _ => 0
  | r :: rest, addr => if r.ltAddr addr then lowerBound rest addr + 1 else 0

/-- `std::vector::insert(begin() + i, a)`. -/
def insertAtIdx {α : Type} (a : α) : Nat → List α → List α
  | 0, l => a :: l
  | _ + 1, [] => [a]
  | i + 1, x :: xs => x :: insertAtIdx a i xs

/-- `GPUAddressRangeTracker::AddTo` (d3d12_manager.h:479-487): insert `range`
at the position found by `lower_bound` over the start address. -/
def AddTo (addresses : List GPUAddressRange) (range : GPUAddressRange) :
    List GPUAddressRange :=
  insertAtIdx range (lowerBound addresses range.start) addresses

/-- The `RDCASSERT` condition inside `AddTo`:
`it == addresses.begin() || it == addresses.end() || range.start < it->start
|| range.start >= it->end` where `it` is the `lower_bound` position. -/
def addToAssert (addresses : List GPUAddressRange) (range : GPUAddressRange) :
    Bool :=
  match addresses[lowerBound addresses range.start]? with
  | none => true
  | some r =>
      decide (lowerBound addresses range.start = 0) ||
        decide (range.start < r.start) || decide (r.end_ ≤ range.start)

/-- `GPUAddressRangeTracker::RemoveFrom` (d3d12_manager.h:489-496):
erase the element at the `lower_bound` position of `baseAddr`. -/
def RemoveFrom (addresses : List GPUAddressRange) (baseAddr : Nat) :
    List GPUAddressRange :=
  addresses.eraseIdx (lowerBound addresses baseAddr)

/-- `GPUAddressRangeTracker::GetResIDFromAddr` (d3d12_manager.h:498-524),
returning the `(id, offs)` output parameters.  `id` is initialised to
`ResourceId()` (= 0) and `offs` to 0; address 0 returns immediately; then the
`lower_bound` element (if any) is checked for containment. -/
def GetResIDFromAddr (addresses : List GPUAddressRange) (addr : Nat) :
    Nat × Nat :=
  if addr = 0 then (0, 0)
  else
    match addresses[lowerBound addresses addr]? with
    | none => (0, 0)
    | some range =>
        if addr < range.start ∨ range.end_ ≤ addr then (0, 0)
        else (range.id, addr - range.start)

/-- Two ranges overlap when they share at least one address. -/
def overlapsRange (a b : GPUAddressRange) : Prop :=
  a.start < b.end_ ∧ b.start < a.end_

instance (a b : GPUAddressRange) : Decidable (overlapsRange a b) :=
  inferInstanceAs (Decidable (_ ∧ _))

/-- Tracker invariant: every registered range is non-empty, and for any two
ranges, the later one in the vector lies entirely below the earlier one
(the vector maintained by `AddTo` is sorted by *descending* start address
with pairwise disjoint ranges). -/
def TrackerInv (addresses : List GPUAddressRange) : Prop :=
  (∀ r ∈ addresses, r.start < r.end_) ∧
    addresses.Pairwise (fun a b => b.end_ ≤ a.start)

instance (addresses : List GPUAddressRange) : Decidable (TrackerInv addresses) :=
  inferInstanceAs (Decidable (_ ∧ _))

/-- One call on a `GPUAddressRangeTracker`. -/
inductive TrackerOp where
  | add (range : GPUAddressRange)
  | remove (baseAddr : Nat)
deriving DecidableEq, Repr

def applyOp (addresses : List GPUAddressRange) : TrackerOp → List GPUAddressRange
  | .add range => AddTo addresses range
  | .remove baseAddr => RemoveFrom addresses baseAddr

def applyOps (addresses : List GPUAddressRange) (ops : List TrackerOp) :
    List GPUAddressRange :=
  ops.foldl applyOp addresses

/-- Preconditions of the claims: `AddTo` is given a non-empty range not
overlapping any registered range, `RemoveFrom` an address inside a
registered range. -/
def ValidOp (addresses : List GPUAddressRange) : TrackerOp → Prop
  | .add range =>
      range.start < range.end_ ∧ ∀ x ∈ addresses, ¬ overlapsRange range x
  | .remove baseAddr =>
      ∃ x ∈ addresses, x.start ≤ baseAddr ∧ baseAddr < x.end_

instance (addresses : List GPUAddressRange) (op : TrackerOp) :
    Decidable (ValidOp addresses op) :=
  match op with
  | .add _ => inferInstanceAs (Decidable (_ ∧ _))
  | .remove _ => inferInstanceAs (Decidable (∃ _ ∈ _, _))

def ValidOps (addresses : List GPUAddressRange) : List TrackerOp → Prop
  | [] => True
  | op :: ops => ValidOp addresses op ∧ ValidOps (applyOp addresses op) ops

instance instDecidableValidOps (addresses : List GPUAddressRange) :
    (ops : List TrackerOp) → Decidable (ValidOps addresses ops)
  | [] => isTrue trivial
  | op :: ops =>
      have : Decidable (ValidOps (applyOp addresses op) ops) :=
        instDecidableValidOps _ ops
      inferInstanceAs (Decidable (_ ∧ _))

/-- The spec's claimed ordering: sorted in ascending order of start address. -/
def AscendingByStart (addresses : List GPUAddressRange) : Prop :=
  addresses.Pairwise (fun a b => a.start ≤ b.start)

instance (addresses : List GPUAddressRange) : Decidable (AscendingByStart addresses) :=
  inferInstanceAs (Decidable (List.Pairwise _ _))

/-! ## Descriptors and portable handles (`PortableHandle`,
`ToPortableHandle`, `DescriptorFromPortableHandle`) -/

/-- Modelled from the spec: a `D3D12Descriptor` is fixed-layout data whose
address doubles as the handle value; for the handle round-trip only its
owning-heap reference, its index within the heap and its view payload
matter.  The `heap` pointer field is modelled by the owning heap's
`ResourceId` (the id `ToPortableHandle` reads from it), `idx` is the index
within the heap, and `data` stands for the remaining view-description
payload bits of the 64-byte record. -/
structure D3D12Descriptor where
  heap : ResourceId
  idx : Nat
  data : Nat
deriving DecidableEq, Repr

/-- `PortableHandle` (d3d12_manager.h:233-240): serialisable surrogate for a
descriptor handle, a (heap identifier, index-within-heap) pair. -/
structure PortableHandle where
  heap : ResourceId
  index : Nat
deriving DecidableEq, Repr

/-- Modelled from the spec: the identity manager's heap registry, mapping a
descriptor heap's `ResourceId` to that heap's descriptor storage.
`D3D12ResourceManager` itself is declared in this header but its mapping
engine (`ResourceManager<...>` in core/resource_manager.h) is not under
src/. -/
abbrev D3D12ResourceManager := List (ResourceId × List D3D12Descriptor)

/-- Modelled from the spec: `GetLiveResource` resolution of a heap id through
the identity manager — returns the registered heap's descriptor storage, or
a not-found result for an unregistered id. -/
def getLiveHeap : D3D12ResourceManager → ResourceId → Option (List D3D12Descriptor)
  | [], _ => none
  | (k, descs) :: rest, i => if k = i then some descs else getLiveHeap rest i

/-- Modelled from the spec: `ToPortableHandle(D3D12Descriptor *handle)`
(declared at d3d12_manager.h:246, defined in d3d12_manager.cpp, which is not
under src/) reads the descriptor's owning heap id and index. -/
def ToPortableHandle (handle : D3D12Descriptor) : PortableHandle :=
  ⟨handle.heap, handle.idx⟩

/-- Modelled from the spec: `DescriptorFromPortableHandle(manager, handle)`
(declared at d3d12_manager.h:253, defined in d3d12_manager.cpp, which is not
under src/) resolves the heap id through the identity manager and indexes
into that heap's descriptor storage. -/
def DescriptorFromPortableHandle (manager : D3D12ResourceManager)
    (handle : PortableHandle) : Option D3D12Descriptor :=
  (getLiveHeap manager handle.heap).bind fun descs => descs[handle.index]?

/-! ## Tile mappings and reserved resources (`TileMapping`,
`ReservedResource`) -/

/-- `D3D12_TILED_RESOURCE_COORDINATE`. -/
structure D3D12_TILED_RESOURCE_COORDINATE where
  X : Nat
  Y : Nat
  Z : Nat
  Subresource : Nat
deriving DecidableEq, Repr

/-- `D3D12_TILE_REGION_SIZE`. -/
structure D3D12_TILE_REGION_SIZE where
  NumTiles : Nat
  UseBox : Bool
  Width : Nat
  Height : Nat
  Depth : Nat
deriving DecidableEq, Repr

/-- `TileMapping` (d3d12_manager.h:279-370): the regions and heap ranges of
one tile-mapping update for one heap.  The raw parallel arrays are modelled
as optional lists (`NULL` pointer = `none`); tile-range flags are modelled
as `Nat` values of `D3D12_TILE_RANGE_FLAGS`. -/
structure TileMapping where
  NumResourceRegions : Nat
  resourceRegionStartCoords : Option (List D3D12_TILED_RESOURCE_COORDINATE)
  resourceRegionSizes : Option (List D3D12_TILE_REGION_SIZE)
  NumRanges : Nat
  rangeFlags : Option (List Nat)
  heapRangeStarts : Option (List Nat)
  rangeTileCounts : Option (List Nat)
  Flags : Nat
deriving DecidableEq, Repr

/-- `ReservedResource` (d3d12_manager.h:373-427).  `tileSize`, `desc`,
`state` and `clearVal` are opaque to the claims and modelled as `Nat`
tokens; `mappings` is the `map<ID3D12Heap*, TileMapping&>` with heap
pointers modelled as `Nat` tokens. -/
structure ReservedResource where
  tileSize : Nat
  desc : Nat
  state : Nat
  clearVal : Nat
  mappings : List (Nat × TileMapping)
deriving DecidableEq, Repr

/-- `ReservedResource::Update` (d3d12_manager.h:396-426).  The only mutation
the body performs is `mappings.clear()` when `pHeap == NULL`; the branch for
non-null start coordinates with null region sizes has an empty body (the
one-tile default appears only as a comment), and the range-flag semantics
exist only as comments. -/
def ReservedResource.Update (rr : ReservedResource) (NumResourceRegions : Nat)
    (pResourceRegionStartCoordinates : Option (List D3D12_TILED_RESOURCE_COORDINATE))
    (pResourceRegionSizes : Option (List D3D12_TILE_REGION_SIZE))
    (pHeap : Option Nat) (NumRanges : Nat)
    (pRangeFlags : Option (List Nat))
    (pHeapRangeStartOffsets : Option (List Nat))
    (pRangeTileCounts : Option (List Nat))
    (Flags : Nat) : ReservedResource :=
  let rr1 := if pHeap = none then { rr with mappings := [] } else rr
  -- `if(pResourceRegionStartCoordinates != NULL && pResourceRegionSizes == NULL)`
  -- has an empty body in the source (lines 416-419), so it changes nothing.
  rr1

/-! ## Resource records: baking (`D3D12ResourceRecord::Bake`) -/

/-- `CmdListRecordingInfo` (d3d12_manager.h:429-451).  Barrier values,
descriptor pointers, bundle record pointers and reserved-resource pointers
are opaque to the claims and modelled as `Nat` tokens; `dirtied` is the set
of dirtied resource ids (modelled as a list). -/
structure CmdListRecordingInfo where
  barriers : List Nat
  tiledResources : List Nat
  dirtied : List ResourceId
  boundDescs : List Nat
  bundles : List Nat
deriving DecidableEq, Repr

/-- The chunk list and command-recording info of a `D3D12ResourceRecord`
(d3d12_manager.h:534-592) — the parts `Bake` exchanges.  `m_Chunks` (from the
base `ResourceRecord`) is modelled as the list of chunk tokens in map order;
`cmdInfo` is `none` for a `NULL` `CmdListRecordingInfo*`. -/
structure D3D12ResourceRecordData where
  m_Chunks : List Nat
  cmdInfo : Option CmdListRecordingInfo
deriving DecidableEq, Repr

/-- `D3D12ResourceRecord::Bake` (d3d12_manager.h:550-558), acting on the
live record and its `bakedCommands` record: `SwapChunks(bakedCommands)`
(modelled from the spec: declared in core/resource_manager.h, not under
src/, and described as exchanging the chunk lists of the two records),
then `swap` of the `barriers`, `dirtied`, `boundDescs` and `bundles` lists
of the two records' `cmdInfo` (note `tiledResources` is not swapped).
`RDCASSERT(cmdInfo)` and the `bakedCommands->cmdInfo` dereference require
both infos present; otherwise the call is modelled as failing. -/
def Bake (live baked : D3D12ResourceRecordData) :
    Option (D3D12ResourceRecordData × D3D12ResourceRecordData) :=
  match live.cmdInfo, baked.cmdInfo with
  | some ci, some bci =>
      some
        ({ m_Chunks := baked.m_Chunks,
           cmdInfo := some { barriers := bci.barriers,
                             tiledResources := ci.tiledResources,
                             dirtied := bci.dirtied,
                             boundDescs := bci.boundDescs,
                             bundles := bci.bundles } },
         { m_Chunks := live.m_Chunks,
           cmdInfo := some { barriers := ci.barriers,
                             tiledResources := bci.tiledResources,
                             dirtied := ci.dirtied,
                             boundDescs := ci.boundDescs,
                             bundles := ci.bundles } })
  | _, _ => none

/-! ## Resource records: dependency-closure chunk collection
(`D3D12ResourceRecord::Insert`) -/

/-- The parent graph of a family of `n` resource records: `parents r` is the
`Parents` list of record `r` (records are identified by indices). -/
structure RecordGraph (n : Nat) where
  parents : Fin n → List (Fin n)

/-- The mutable state threaded through `Insert` calls: the `DataWritten`
flag of every record, and the records whose chunk batches have been inserted
into the `recordlist` map, in insertion order (each record's `m_Chunks` keys
are disjoint from every other record's, so `map::insert` never drops a
chunk of a batch and the map's content is determined by this list). -/
structure InsertState (n : Nat) where
  written : Finset (Fin n)
  recordlist : List (Fin n)

mutual
/-- `D3D12ResourceRecord::Insert` (d3d12_manager.h:560-576) with explicit
fuel: read `DataWritten`, set it, recurse into every parent whose
`DataWritten` is unset, then insert the record's own chunks iff the flag was
unset on entry.  The fuel only bounds recursion depth; one unit is consumed
per nested `Insert` call, and every nested call marks a previously unmarked
record, so any fuel past the number of records is never exhausted. -/
def insertCore {n : Nat} (g : RecordGraph n) :
    Nat → Fin n → InsertState n → InsertState n
  | 0, _, s => s
  | fuel + 1, r, s =>
    let s1 : InsertState n := ⟨insert r s.written, s.recordlist⟩
    let s2 := insertParents g fuel (g.parents r) s1
    if r ∈ s.written then s2
    else ⟨s2.written, s2.recordlist ++ [r]⟩
termination_by fuel _ _ => (fuel, 0)

/-- The `for(auto it = Parents.begin(); ...)` loop of `Insert`: recurse into
each listed parent whose `DataWritten` is unset. -/
def insertParents {n : Nat} (g : RecordGraph n) :
    Nat → List (Fin n) → InsertState n → InsertState n
  | _, [], s => s
  | fuel, p :: ps, s =>
    if p ∈ s.written then insertParents g fuel ps s
    else insertParents g fuel ps (insertCore g fuel p s)
termination_by fuel ps _ => (fuel, ps.length + 1)
end

/-- A top-level `Insert(recordlist)` call on record `r`: `n + 2` units of
fuel always exceed the recursion depth (which is bounded by the number of
records not yet marked written, plus one). -/
def D3D12ResourceRecord.Insert {n : Nat} (g : RecordGraph n) (r : Fin n)
    (s : InsertState n) : InsertState n :=
  insertCore g (n + 2) r s

/-- A sequence of top-level `Insert` calls into one shared `recordlist`,
starting from all `DataWritten` flags unset and an empty map. -/
def runInserts {n : Nat} (g : RecordGraph n) (calls : List (Fin n)) :
    InsertState n :=
  calls.foldl (fun s r => D3D12ResourceRecord.Insert g r s) ⟨∅, []⟩

/-- `q` is reachable from `r` along `Parents` edges (reflexively). -/
inductive Reaches {n : Nat} (g : RecordGraph n) : Fin n → Fin n → Prop where
  | refl (r : Fin n) : Reaches g r r
  | step {r p q : Fin n} : p ∈ g.parents r → Reaches g p q → Reaches g r q

/-- The parent graph is acyclic: no record is reachable from one of its own
parents. -/
def Acyclic {n : Nat} (g : RecordGraph n) : Prop :=
  ∀ r p, p ∈ g.parents r → ¬ Reaches g p r

/-- Helper for `ParentsBefore`: every element of the second list has all its
parents among `seen` together with the elements preceding it in the list. -/
def ParentsBeforeAux {n : Nat} (g : RecordGraph n) :
    List (Fin n) → List (Fin n) → Prop
  | _, [] => True
  | seen, x :: rest =>
      (∀ p ∈ g.parents x, p ∈ seen) ∧ ParentsBeforeAux g (seen ++ [x]) rest

/-- Every record in the list has each of its parents inserted strictly
before it. -/
def ParentsBefore {n : Nat} (g : RecordGraph n) (l : List (Fin n)) : Prop :=
  ParentsBeforeAux g [] l

/-- The invariant of a shared `recordlist`: together with a set `G` of
records whose `Insert` frames are still in progress, the `DataWritten`
flags are exactly `G` plus the inserted records; inserted records are
pairwise distinct and parent-closed in order. -/
def StateInv {n : Nat} (g : RecordGraph n) (G : Finset (Fin n))
    (s : InsertState n) : Prop :=
  (∀ x, x ∈ s.written ↔ x ∈ G ∨ x ∈ s.recordlist) ∧
    s.recordlist.Nodup ∧ ParentsBefore g s.recordlist

/-- A concrete two-record family: record 1 has record 0 as its parent
(e.g. a command list depending on one resource). -/
def g2 : RecordGraph 2 := ⟨fun r => if r = 1 then [0] else []⟩

/-! ## Initial contents (`D3D12InitialContents`) -/

/-- `D3D12ResourceType` (d3d12_manager.h:35-51). -/
inductive D3D12ResourceType where
  | Resource_Unknown
  | Resource_Device
  | Resource_CommandAllocator
  | Resource_CommandQueue
  | Resource_CommandSignature
  | Resource_DescriptorHeap
  | Resource_Fence
  | Resource_Heap
  | Resource_PipelineState
  | Resource_QueryHeap
  | Resource_Resource
  | Resource_GraphicsCommandList
  | Resource_RootSignature
  | Resource_PipelineLibrary
deriving DecidableEq, Repr

/-- `D3D12InitialContents::Tag` (d3d12_manager.h:598-605). -/
inductive D3D12InitialContentsTag where
  | Copy
  | MapDirect
  | Multisampled
deriving DecidableEq, Repr

/-- `D3D12InitialContents` (d3d12_manager.h:596-653).  The
`D3D12Descriptor*` and `ID3D12DeviceChild*` pointer fields are modelled as
`Nat` tokens with `0` for `NULL`. -/
structure D3D12InitialContents where
  tag : D3D12InitialContentsTag
  resourceType : D3D12ResourceType
  descriptors : Nat
  numDescriptors : Nat
  resource : Nat
deriving DecidableEq, Repr

/-- Constructor `D3D12InitialContents(D3D12Descriptor *d, uint32_t n)`
(d3d12_manager.h:606-613). -/
def D3D12InitialContents.ofDescriptors (d : Nat) (n : Nat) : D3D12InitialContents :=
  ⟨.Copy, .Resource_DescriptorHeap, d, n, 0⟩

/-- Constructor `D3D12InitialContents(ID3D12DescriptorHeap *r)`
(d3d12_manager.h:614-621). -/
def D3D12InitialContents.ofDescriptorHeap (r : Nat) : D3D12InitialContents :=
  ⟨.Copy, .Resource_DescriptorHeap, 0, 0, r⟩

/-- Constructor `D3D12InitialContents(ID3D12Resource *r)`
(d3d12_manager.h:622-629). -/
def D3D12InitialContents.ofResource (r : Nat) : D3D12InitialContents :=
  ⟨.Copy, .Resource_DescriptorHeap, 0, 0, r⟩

/-- Constructor `D3D12InitialContents(Tag tg)` (d3d12_manager.h:630-637). -/
def D3D12InitialContents.ofTag (tg : D3D12InitialContentsTag) : D3D12InitialContents :=
  ⟨tg, .Resource_DescriptorHeap, 0, 0, 0⟩

/-- Default constructor `D3D12InitialContents()` (d3d12_manager.h:638-641). -/
def D3D12InitialContents.default : D3D12InitialContents :=
  ⟨.Copy, .Resource_Unknown, 0, 0, 0⟩

/-! ## Squeezed UAV descriptions
(`D3D12_UNORDERED_ACCESS_VIEW_DESC_SQUEEZED`) -/

/-- `D3D12_BUFFER_UAV` as used by `D3D12_UNORDERED_ACCESS_VIEW_DESC`:
`FirstElement`/`CounterOffsetInBytes` are `UINT64`, `NumElements`/
`StructureByteStride` are `UINT`, `Flags` is `D3D12_BUFFER_UAV_FLAGS`. -/
structure D3D12_BUFFER_UAV where
  FirstElement : Nat
  NumElements : Nat
  StructureByteStride : Nat
  CounterOffsetInBytes : Nat
  Flags : Nat
deriving DecidableEq, Repr

/-- `D3D12_UNORDERED_ACCESS_VIEW_DESC` restricted to the buffer view (the
squeeze copies exactly the buffer payload; the texture union members are
asserted to fit in the same four words). -/
structure D3D12_UNORDERED_ACCESS_VIEW_DESC where
  Format : Nat
  ViewDimension : Nat
  Buffer : D3D12_BUFFER_UAV
deriving DecidableEq, Repr

/-- `D3D12_UNORDERED_ACCESS_VIEW_DESC_SQUEEZED` (d3d12_manager.h:58-120):
`Format`, `ViewDimension` and `BufferFlags` compressed to one byte each,
plus the buffer payload. -/
structure D3D12_UNORDERED_ACCESS_VIEW_DESC_SQUEEZED where
  Format : Nat
  ViewDimension : Nat
  BufferFlags : Nat
  FirstElement : Nat
  NumElements : Nat
  StructureByteStride : Nat
  CounterOffsetInBytes : Nat
deriving DecidableEq, Repr

/-- `D3D12_UNORDERED_ACCESS_VIEW_DESC_SQUEEZED::Init`
(d3d12_manager.h:83-103): the `(uint8_t)` casts are `% 256`; the buffer
fields are copied at full width. -/
def D3D12_UNORDERED_ACCESS_VIEW_DESC_SQUEEZED.Init
    (desc : D3D12_UNORDERED_ACCESS_VIEW_DESC) :
    D3D12_UNORDERED_ACCESS_VIEW_DESC_SQUEEZED :=
  { Format := desc.Format % 256,
    ViewDimension := desc.ViewDimension % 256,
    BufferFlags := desc.Buffer.Flags % 256,
    FirstElement := desc.Buffer.FirstElement,
    NumElements := desc.Buffer.NumElements,
    StructureByteStride := desc.Buffer.StructureByteStride,
    CounterOffsetInBytes := desc.Buffer.CounterOffsetInBytes }

/-- `D3D12_UNORDERED_ACCESS_VIEW_DESC_SQUEEZED::AsDesc`
(d3d12_manager.h:105-119): widening the one-byte fields preserves their
values. -/
def D3D12_UNORDERED_ACCESS_VIEW_DESC_SQUEEZED.AsDesc
    (s : D3D12_UNORDERED_ACCESS_VIEW_DESC_SQUEEZED) :
    D3D12_UNORDERED_ACCESS_VIEW_DESC :=
  { Format := s.Format,
    ViewDimension := s.ViewDimension,
    Buffer := { FirstElement := s.FirstElement,
                NumElements := s.NumElements,
                StructureByteStride := s.StructureByteStride,
                CounterOffsetInBytes := s.CounterOffsetInBytes,
                Flags := s.BufferFlags } }

/-! # Theorems -/

/-! ## GPU address range tracker lemmas -/

theorem ltAddr_true_iff (r : GPUAddressRange) (o : Nat) :
    r.ltAddr o = true ↔ o < r.start := by
  simp [GPUAddressRange.ltAddr]

theorem lowerBound_le_length (L : List GPUAddressRange) (a : Nat) :
    lowerBound L a ≤ L.length := by
  induction L with
  | nil => simp [lowerBound]
  | cons y L ih =>
      by_cases hc : a < y.start <;>
        simp [lowerBound, GPUAddressRange.ltAddr, hc, List.length_cons] <;> omega

theorem mem_insertAtIdx {α : Type} (a : α) :
    ∀ (i : Nat) (l : List α) (y : α), y ∈ insertAtIdx a i l ↔ y = a ∨ y ∈ l
  | 0, l, y => by simp [insertAtIdx]
  | _ + 1, [], y => by simp [insertAtIdx]
  | i + 1, x :: xs, y => by
      simp only [insertAtIdx, List.mem_cons, mem_insertAtIdx a i xs y]
      tauto

theorem mem_AddTo (L : List GPUAddressRange) (r y : GPUAddressRange) :
    y ∈ AddTo L r ↔ y = r ∨ y ∈ L :=
  mem_insertAtIdx r (lowerBound L r.start) L y

theorem AddTo_cons (x : GPUAddressRange) (L : List GPUAddressRange)
    (r : GPUAddressRange) :
    AddTo (x :: L) r =
      if r.start < x.start then x :: AddTo L r else r :: x :: L := by
  by_cases hc : r.start < x.start <;>
    simp [AddTo, lowerBound, GPUAddressRange.ltAddr, hc, insertAtIdx]

theorem trackerInv_nil : TrackerInv [] :=
  ⟨fun r hr => absurd hr (List.not_mem_nil r), List.Pairwise.nil⟩

theorem addTo_trackerInv :
    ∀ {L : List GPUAddressRange} {r : GPUAddressRange}, TrackerInv L →
      r.start < r.end_ → (∀ x ∈ L, ¬ overlapsRange r x) →
      TrackerInv (AddTo L r) := by
  intro L
  induction L with
  | nil =>
      intro r _ hwf _
      refine ⟨fun y hy => ?_, ?_⟩
      · simp [AddTo, lowerBound, insertAtIdx] at hy
        simpa [hy] using hwf
      · simp [AddTo, lowerBound, insertAtIdx]
  | cons x L ih =>
      intro r hinv hwf hno
      have hwfx : x.start < x.end_ := hinv.1 x (List.mem_cons_self x L)
      have hpw := List.pairwise_cons.mp hinv.2
      rw [AddTo_cons]
      by_cases hc : r.start < x.start
      · rw [if_pos hc]
        have hinvL : TrackerInv L :=
          ⟨fun y hy => hinv.1 y (List.mem_cons_of_mem x hy), hpw.2⟩
        have hihr := ih hinvL hwf (fun y hy => hno y (List.mem_cons_of_mem x hy))
        refine ⟨fun y hy => ?_, List.pairwise_cons.mpr ⟨fun y hy => ?_, hihr.2⟩⟩
        · rcases List.mem_cons.mp hy with he | hy'
          · simpa [he] using hwfx
          · exact hihr.1 y hy'
        · rcases (mem_AddTo L r y).mp hy with he | hy'
          · subst he
            have hnx := hno x (List.mem_cons_self x L)
            have : ¬ (x.start < y.end_) := fun hlt => hnx ⟨by omega, hlt⟩
            omega
          · exact hpw.1 y hy'
      · rw [if_neg hc]
        have hxr : x.start ≤ r.start := Nat.not_lt.mp hc
        refine ⟨fun y hy => ?_, List.pairwise_cons.mpr ⟨fun y hy => ?_, hinv.2⟩⟩
        · rcases List.mem_cons.mp hy with he | hy'
          · simpa [he] using hwf
          · exact hinv.1 y hy'
        · rcases List.mem_cons.mp hy with he | hy'
          · subst he
            have hnx := hno y (List.mem_cons_self y L)
            have : ¬ (r.start < y.end_) := fun hlt => hnx ⟨hlt, by omega⟩
            omega
          · have := hpw.1 y hy'
            omega

theorem removeFrom_trackerInv {L : List GPUAddressRange} {a : Nat}
    (hinv : TrackerInv L) : TrackerInv (RemoveFrom L a) := by
  have hsub : (RemoveFrom L a).Sublist L := List.eraseIdx_sublist L _
  exact ⟨fun r hr => hinv.1 r (hsub.mem hr), hinv.2.sublist hsub⟩

theorem validOps_trackerInv :
    ∀ (ops : List TrackerOp) (L : List GPUAddressRange), TrackerInv L →
      ValidOps L ops → TrackerInv (applyOps L ops)
  | [], _, hinv, _ => hinv
  | op :: ops, L, hinv, hv => by
      have h1 : TrackerInv (applyOp L op) := by
        cases op with
        | add r => exact addTo_trackerInv hinv hv.1.1 hv.1.2
        | remove a => exact removeFrom_trackerInv hinv
      exact validOps_trackerInv ops (applyOp L op) h1 hv.2

theorem validOps_append :
    ∀ (ops₁ ops₂ : List TrackerOp) (L : List GPUAddressRange),
      ValidOps L (ops₁ ++ ops₂) → ValidOps L ops₁
  | [], _, _, _ => trivial
  | _ :: ops₁, ops₂, _, h => ⟨h.1, validOps_append ops₁ ops₂ _ h.2⟩

theorem lowerBound_finds :
    ∀ (L : List GPUAddressRange),
      L.Pairwise (fun a b => b.end_ ≤ a.start) →
      ∀ x ∈ L, ∀ a : Nat, x.start ≤ a → a < x.end_ →
      L[lowerBound L a]? = some x := by
  intro L
  induction L with
  | nil => intro _ x hx; exact absurd hx (List.not_mem_nil x)
  | cons y L ih =>
      intro hpw x hx a h1 h2
      have hpc := List.pairwise_cons.mp hpw
      by_cases hc : a < y.start
      · have hxy : x ≠ y := fun he => by subst he; omega
        have hxL : x ∈ L := by
          rcases List.mem_cons.mp hx with he | hm
          · exact absurd he hxy
          · exact hm
        simpa [lowerBound, GPUAddressRange.ltAddr, hc] using
          ih hpc.2 x hxL a h1 h2
      · have hxy : x = y := by
          rcases List.mem_cons.mp hx with he | hm
          · exact he
          · have := hpc.1 x hm
            omega
        subst hxy
        simp [lowerBound, GPUAddressRange.ltAddr, hc]

theorem lowerBound_stop :
    ∀ (L : List GPUAddressRange) (a : Nat) (r : GPUAddressRange),
      L[lowerBound L a]? = some r → r.start ≤ a := by
  intro L
  induction L with
  | nil => intro a r h; simp [lowerBound] at h
  | cons y L ih =>
      intro a r h
      by_cases hc : a < y.start
      · simp only [lowerBound, GPUAddressRange.ltAddr, hc, if_pos,
          List.getElem?_cons_succ] at h
        exact ih a r (by simpa using h)
      · simp [lowerBound, GPUAddressRange.ltAddr, hc] at h
        subst h
        omega

/-! ## C1: `GetResIDFromAddr` lookup -/

/-- C1 (counterexample): a range starting at address 0 is registered through
a valid `AddTo`, address 0 lies within it, yet `GetResIDFromAddr` reports
the not-found result `(ResourceId(), 0)` instead of the range's id — the
claim's first half fails at address 0. -/
theorem getResIDFromAddr_zero_counterexample :
    ValidOps [] [TrackerOp.add ⟨0, 10, 5⟩] ∧
      applyOps [] [TrackerOp.add ⟨0, 10, 5⟩] = [⟨0, 10, 5⟩] ∧
      ((⟨0, 10, 5⟩ : GPUAddressRange).start ≤ 0 ∧
        0 < (⟨0, 10, 5⟩ : GPUAddressRange).end_) ∧
      GetResIDFromAddr [⟨0, 10, 5⟩] 0 ≠
        ((⟨0, 10, 5⟩ : GPUAddressRange).id,
          0 - (⟨0, 10, 5⟩ : GPUAddressRange).start) := by
  decide

/-- C1 (corrected): on a tracker state satisfying the maintained invariant
and in which no registered range starts at address 0, every address `a`
inside a registered range `[start, end)` resolves to that range's id and
offset `a - start`, and every other address — including address 0 and an
address exactly equal to a range's `end` — yields the zero `ResourceId` and
offset 0.  (`GetResIDFromAddr` is a total function: it never fails the
caller.) -/
theorem getResIDFromAddr_spec (addresses : List GPUAddressRange)
    (hinv : TrackerInv addresses) (hz : ∀ x ∈ addresses, 0 < x.start)
    (a : Nat) :
    (∀ x ∈ addresses, x.start ≤ a → a < x.end_ →
        GetResIDFromAddr addresses a = (x.id, a - x.start)) ∧
      ((∀ x ∈ addresses, ¬ (x.start ≤ a ∧ a < x.end_)) →
        GetResIDFromAddr addresses a = (0, 0)) := by
  constructor
  · intro x hx h1 h2
    have hne : a ≠ 0 := by have := hz x hx; omega
    have hfind := lowerBound_finds addresses hinv.2 x hx a h1 h2
    simp only [GetResIDFromAddr, if_neg hne, hfind]
    rw [if_neg]
    omega
  · intro h
    by_cases hz0 : a = 0
    · simp [GetResIDFromAddr, hz0]
    · rw [GetResIDFromAddr, if_neg hz0]
      cases hq : addresses[lowerBound addresses a]? with
      | none => rfl
      | some r =>
          have hra : r.start ≤ a := lowerBound_stop addresses a r hq
          have hrm : r ∈ addresses := List.getElem?_mem hq
          have := h r hrm
          simp only
          rw [if_pos]
          omega

/-- Witness for C1: on the tracker holding `[20,30)↦2, [5,10)↦1`, address 7
resolves to id 1 at offset 2. -/
theorem getResIDFromAddr_spec_witness :
    (TrackerInv [⟨20, 30, 2⟩, ⟨5, 10, 1⟩] ∧
        (∀ x ∈ [(⟨20, 30, 2⟩ : GPUAddressRange), ⟨5, 10, 1⟩], 0 < x.start)) ∧
      GetResIDFromAddr [⟨20, 30, 2⟩, ⟨5, 10, 1⟩] 7 = (1, 2) :=
  ⟨⟨by decide, by decide⟩,
    (getResIDFromAddr_spec [⟨20, 30, 2⟩, ⟨5, 10, 1⟩] (by decide) (by decide) 7).1
      ⟨5, 10, 1⟩ (by decide) (by decide) (by decide)⟩

/-! ## C2: the maintained ordering of `addresses` -/

/-- C2 (counterexample): two valid, non-overlapping `AddTo` calls leave the
vector `[[10,20), [1,2)]`, which is not sorted in ascending order of start
address — `AddTo`'s comparator maintains descending order. -/
theorem tracker_ascending_counterexample :
    ValidOps [] [TrackerOp.add ⟨10, 20, 1⟩, TrackerOp.add ⟨1, 2, 2⟩] ∧
      applyOps [] [TrackerOp.add ⟨10, 20, 1⟩, TrackerOp.add ⟨1, 2, 2⟩] =
        [⟨10, 20, 1⟩, ⟨1, 2, 2⟩] ∧
      ¬ AscendingByStart
          (applyOps [] [TrackerOp.add ⟨10, 20, 1⟩, TrackerOp.add ⟨1, 2, 2⟩]) := by
  decide

/-- C2 (corrected): for every sequence of valid `AddTo`/`RemoveFrom` calls
(each `AddTo` given a non-empty range not overlapping the registered ones,
each `RemoveFrom` an address inside a registered range), the `addresses`
vector is at every point — i.e. after every prefix of the sequence — sorted
in *descending* order of start address with pairwise non-overlapping
ranges. -/
theorem tracker_sorted_disjoint (ops₁ ops₂ : List TrackerOp)
    (h : ValidOps [] (ops₁ ++ ops₂)) :
    (applyOps [] ops₁).Pairwise (fun a b => b.start < a.start) ∧
      (applyOps [] ops₁).Pairwise (fun a b => ¬ overlapsRange a b) := by
  have hinv : TrackerInv (applyOps [] ops₁) :=
    validOps_trackerInv ops₁ [] trackerInv_nil (validOps_append ops₁ ops₂ [] h)
  constructor
  · exact hinv.2.imp_of_mem (fun ha hb hr => by
      have := hinv.1 _ hb
      omega)
  · exact hinv.2.imp (fun hr hov => by
      rcases hov with ⟨h1, _⟩
      omega)

/-- Witness for C2: an add-add-remove sequence, observed after its two-call
prefix. -/
theorem tracker_sorted_disjoint_witness :
    ValidOps []
        ([TrackerOp.add ⟨20, 30, 1⟩, TrackerOp.add ⟨5, 10, 2⟩] ++
          [TrackerOp.remove 21]) ∧
      ((applyOps [] [TrackerOp.add ⟨20, 30, 1⟩, TrackerOp.add ⟨5, 10, 2⟩]).Pairwise
          (fun a b => b.start < a.start) ∧
        (applyOps [] [TrackerOp.add ⟨20, 30, 1⟩, TrackerOp.add ⟨5, 10, 2⟩]).Pairwise
          (fun a b => ¬ overlapsRange a b)) :=
  ⟨by decide,
    tracker_sorted_disjoint [TrackerOp.add ⟨20, 30, 1⟩, TrackerOp.add ⟨5, 10, 2⟩]
      [TrackerOp.remove 21] (by decide)⟩

/-! ## C3: the `RDCASSERT` in `AddTo` -/

/-- C3 (counterexample): the range `[15,17)` overlaps the registered range
`[10,20)` (reached by a valid `AddTo` from the empty tracker), yet the
`RDCASSERT` condition in `AddTo` evaluates *true* (because `lower_bound`
lands on `addresses.begin()`), so this overlap is not detected. -/
theorem addToAssert_overlap_missed :
    ValidOps [] [TrackerOp.add ⟨10, 20, 1⟩] ∧
      applyOps [] [TrackerOp.add ⟨10, 20, 1⟩] = [⟨10, 20, 1⟩] ∧
      overlapsRange ⟨15, 17, 2⟩ ⟨10, 20, 1⟩ ∧
      addToAssert [⟨10, 20, 1⟩] ⟨15, 17, 2⟩ = true := by
  decide

/-- C3 (corrected): the `RDCASSERT` condition in `AddTo` is sound but not
complete.  For every state of the tracker satisfying the maintained
invariant and every non-empty new range: if the new range overlaps no
registered range the condition evaluates true (so the insert proceeds), and
whenever the condition evaluates false the new range genuinely overlaps
some registered range; but it does not detect every overlap. -/
theorem addToAssert_sound (addresses : List GPUAddressRange)
    (range : GPUAddressRange) (hinv : TrackerInv addresses)
    (hwf : range.start < range.end_) :
    ((∀ x ∈ addresses, ¬ overlapsRange range x) →
        addToAssert addresses range = true) ∧
      (addToAssert addresses range = false →
        ∃ x ∈ addresses, overlapsRange range x) := by
  have hmain : addToAssert addresses range = false →
      ∃ x ∈ addresses, overlapsRange range x := by
    intro hfalse
    rw [addToAssert] at hfalse
    cases hq : addresses[lowerBound addresses range.start]? with
    | none => rw [hq] at hfalse; exact absurd hfalse (by simp)
    | some r =>
        rw [hq] at hfalse
        simp only [Bool.or_eq_false_iff, decide_eq_false_iff_not] at hfalse
        have hrm : r ∈ addresses := List.getElem?_mem hq
        refine ⟨r, hrm, ?_, ?_⟩ <;> omega
  refine ⟨fun hno => ?_, hmain⟩
  cases hb : addToAssert addresses range with
  | false =>
      obtain ⟨x, hx, hov⟩ := hmain hb
      exact absurd hov (hno x hx)
  | true => rfl

/-- Witness for C3: inserting the non-overlapping range `[5,8)` into the
tracker holding `[10,20)` passes the assertion. -/
theorem addToAssert_sound_witness :
    (TrackerInv [⟨10, 20, 1⟩] ∧ (5 : Nat) < 8) ∧
      addToAssert [⟨10, 20, 1⟩] ⟨5, 8, 2⟩ = true :=
  ⟨⟨by decide, by decide⟩,
    (addToAssert_sound [⟨10, 20, 1⟩] ⟨5, 8, 2⟩ (by decide) (by decide)).1
      (by decide)⟩

/-! ## C4: portable-handle round trip -/

/-- C4 (confirmed, spec-modelled): for every live descriptor handle — a
descriptor stored in a heap registered with the resource manager, whose
`heap` and `idx` fields are consistent with its storage slot — converting
to a `PortableHandle` and resolving back through the manager returns the
descriptor itself. -/
theorem portable_handle_roundtrip (manager : D3D12ResourceManager)
    (h : D3D12Descriptor) (descs : List D3D12Descriptor)
    (hheap : getLiveHeap manager h.heap = some descs)
    (hidx : descs[h.idx]? = some h) :
    DescriptorFromPortableHandle manager (ToPortableHandle h) = some h := by
  simp [DescriptorFromPortableHandle, ToPortableHandle, hheap, hidx]

/-- Witness for C4: the descriptor in slot 1 of the heap registered under id
7 round-trips. -/
theorem portable_handle_roundtrip_witness :
    (getLiveHeap [(7, [⟨7, 0, 10⟩, ⟨7, 1, 11⟩])] (7 : ResourceId) =
        some [⟨7, 0, 10⟩, ⟨7, 1, 11⟩] ∧
      [(⟨7, 0, 10⟩ : D3D12Descriptor), ⟨7, 1, 11⟩][(1 : Nat)]? =
        some ⟨7, 1, 11⟩) ∧
      DescriptorFromPortableHandle [(7, [⟨7, 0, 10⟩, ⟨7, 1, 11⟩])]
          (ToPortableHandle ⟨7, 1, 11⟩) = some ⟨7, 1, 11⟩ :=
  ⟨⟨by decide, by decide⟩,
    portable_handle_roundtrip [(7, [⟨7, 0, 10⟩, ⟨7, 1, 11⟩])] ⟨7, 1, 11⟩
      [⟨7, 0, 10⟩, ⟨7, 1, 11⟩] (by decide) (by decide)⟩

/-! ## C6: `Bake` exchanges the lists -/

/-- C6 (confirmed): for records with non-null `cmdInfo` and an allocated
`bakedCommands` record (itself with non-null `cmdInfo`), `Bake` exchanges
the chunk list and the `barriers`, `dirtied`, `boundDescs` and `bundles`
lists: afterwards the live record holds exactly what the baked record held
before the call, and the baked record holds exactly what the live record
held. -/
theorem bake_swaps_lists (live baked : D3D12ResourceRecordData)
    (ci bci : CmdListRecordingInfo) (hl : live.cmdInfo = some ci)
    (hb : baked.cmdInfo = some bci) :
    ∃ live' baked', Bake live baked = some (live', baked') ∧
      live'.m_Chunks = baked.m_Chunks ∧ baked'.m_Chunks = live.m_Chunks ∧
      (∃ ci', live'.cmdInfo = some ci' ∧ ci'.barriers = bci.barriers ∧
        ci'.dirtied = bci.dirtied ∧ ci'.boundDescs = bci.boundDescs ∧
        ci'.bundles = bci.bundles) ∧
      (∃ bci', baked'.cmdInfo = some bci' ∧ bci'.barriers = ci.barriers ∧
        bci'.dirtied = ci.dirtied ∧ bci'.boundDescs = ci.boundDescs ∧
        bci'.bundles = ci.bundles) := by
  refine ⟨⟨baked.m_Chunks, some ⟨bci.barriers, ci.tiledResources, bci.dirtied,
      bci.boundDescs, bci.bundles⟩⟩,
    ⟨live.m_Chunks, some ⟨ci.barriers, bci.tiledResources, ci.dirtied,
      ci.boundDescs, ci.bundles⟩⟩, ?_, rfl, rfl,
    ⟨_, rfl, rfl, rfl, rfl, rfl⟩, ⟨_, rfl, rfl, rfl, rfl, rfl⟩⟩
  rw [Bake, hl, hb]

/-- Witness for C6 at concrete records: the empty baked lists move to the
live record (resetting it) and the recorded lists move to the baked
record. -/
theorem bake_swaps_lists_witness :
    ((⟨[1, 2], some ⟨[3], [4], [5], [6], [7]⟩⟩ :
          D3D12ResourceRecordData).cmdInfo = some ⟨[3], [4], [5], [6], [7]⟩ ∧
      (⟨[], some ⟨[], [], [], [], []⟩⟩ :
          D3D12ResourceRecordData).cmdInfo = some ⟨[], [], [], [], []⟩) ∧
      ∃ live' baked',
        Bake ⟨[1, 2], some ⟨[3], [4], [5], [6], [7]⟩⟩
            ⟨[], some ⟨[], [], [], [], []⟩⟩ = some (live', baked') ∧
        live'.m_Chunks = [] ∧ baked'.m_Chunks = [1, 2] ∧
        (∃ ci', live'.cmdInfo = some ci' ∧ ci'.barriers = [] ∧
          ci'.dirtied = [] ∧ ci'.boundDescs = [] ∧ ci'.bundles = []) ∧
        (∃ bci', baked'.cmdInfo = some bci' ∧ bci'.barriers = [3] ∧
          bci'.dirtied = [5] ∧ bci'.boundDescs = [6] ∧ bci'.bundles = [7]) :=
  ⟨⟨rfl, rfl⟩,
    bake_swaps_lists ⟨[1, 2], some ⟨[3], [4], [5], [6], [7]⟩⟩
      ⟨[], some ⟨[], [], [], [], []⟩⟩ ⟨[3], [4], [5], [6], [7]⟩
      ⟨[], [], [], [], []⟩ rfl rfl⟩

/-! ## C7: `Update` with a null heap clears the mappings -/

/-- C7 (confirmed): for every `ReservedResource` — whatever heap-to-
`TileMapping` bindings it currently holds — an `Update` call with a null
`pHeap` leaves the mappings table empty. -/
theorem update_null_heap_clears (rr : ReservedResource)
    (NumResourceRegions : Nat)
    (pResourceRegionStartCoordinates : Option (List D3D12_TILED_RESOURCE_COORDINATE))
    (pResourceRegionSizes : Option (List D3D12_TILE_REGION_SIZE))
    (NumRanges : Nat) (pRangeFlags : Option (List Nat))
    (pHeapRangeStartOffsets : Option (List Nat))
    (pRangeTileCounts : Option (List Nat)) (Flags : Nat) :
    (rr.Update NumResourceRegions pResourceRegionStartCoordinates
        pResourceRegionSizes none NumRanges pRangeFlags
        pHeapRangeStartOffsets pRangeTileCounts Flags).mappings = [] := by
  simp [ReservedResource.Update]

/-! ## C8: the one-tile region default is not implemented -/

/-- C8 (code bug): evaluating `Update` at the failing input — non-null
start coordinates, null region sizes, a non-null heap — leaves the
resource's mappings exactly as they were: no mapping with one-tile regions
(nor any mapping at all) is recorded, because the branch guarding this case
has an empty body. -/
theorem update_one_tile_default_missing :
    (ReservedResource.Update ⟨1, 2, 3, 4, []⟩ 1 (some [⟨0, 0, 0, 0⟩]) none
        (some 7) 1 (some [0]) (some [0]) (some [1]) 0) = ⟨1, 2, 3, 4, []⟩ := by
  decide

/-! ## C9: squeezed UAV description round trip -/

/-- C9 (confirmed): for every `D3D12_UNORDERED_ACCESS_VIEW_DESC` whose
`Format`, `ViewDimension` and `Buffer.Flags` are representable in 8 bits,
`Init` followed by `AsDesc` reproduces the description — in particular the
`Format`, `ViewDimension`, `Buffer.FirstElement`, `Buffer.NumElements`,
`Buffer.StructureByteStride`, `Buffer.CounterOffsetInBytes` and
`Buffer.Flags` fields. -/
theorem uav_squeeze_roundtrip (desc : D3D12_UNORDERED_ACCESS_VIEW_DESC)
    (hF : desc.Format < 256) (hV : desc.ViewDimension < 256)
    (hfl : desc.Buffer.Flags < 256) :
    (D3D12_UNORDERED_ACCESS_VIEW_DESC_SQUEEZED.Init desc).AsDesc = desc := by
  rcases desc with ⟨F, V, ⟨fe, ne, sbs, co, fl⟩⟩
  simp only [D3D12_UNORDERED_ACCESS_VIEW_DESC_SQUEEZED.Init,
    D3D12_UNORDERED_ACCESS_VIEW_DESC_SQUEEZED.AsDesc] at *
  congr 1 <;> first
    | exact Nat.mod_eq_of_lt hF
    | exact Nat.mod_eq_of_lt hV
    | congr 1 <;> first
        | rfl
        | exact Nat.mod_eq_of_lt hfl

/-- Witness for C9 at a concrete buffer UAV description. -/
theorem uav_squeeze_roundtrip_witness :
    ((200 : Nat) < 256 ∧ (1 : Nat) < 256 ∧ (1 : Nat) < 256) ∧
      (D3D12_UNORDERED_ACCESS_VIEW_DESC_SQUEEZED.Init
          ⟨200, 1, ⟨16, 1024, 32, 4096, 1⟩⟩).AsDesc =
        ⟨200, 1, ⟨16, 1024, 32, 4096, 1⟩⟩ :=
  ⟨⟨by decide, by decide, by decide⟩,
    uav_squeeze_roundtrip ⟨200, 1, ⟨16, 1024, 32, 4096, 1⟩⟩ (by decide)
      (by decide) (by decide)⟩

/-! ## C10: `D3D12InitialContents` constructors -/

/-- C10 (confirmed): every non-default constructor of `D3D12InitialContents`
sets `resourceType` to `Resource_DescriptorHeap` — including the plain
`ID3D12Resource*` constructor — while only the default constructor yields
`Resource_Unknown` (and `Resource_DescriptorHeap ≠ Resource_Unknown`); every
constructor except the `Tag`-only one sets `tag` to `Copy`, and the
`Tag`-only constructor stores the given tag. -/
theorem initial_contents_resource_type (d n r r' : Nat)
    (tg : D3D12InitialContentsTag) :
    (D3D12InitialContents.ofDescriptors d n).resourceType =
        D3D12ResourceType.Resource_DescriptorHeap ∧
      (D3D12InitialContents.ofDescriptorHeap r).resourceType =
        D3D12ResourceType.Resource_DescriptorHeap ∧
      (D3D12InitialContents.ofResource r').resourceType =
        D3D12ResourceType.Resource_DescriptorHeap ∧
      (D3D12InitialContents.ofTag tg).resourceType =
        D3D12ResourceType.Resource_DescriptorHeap ∧
      D3D12InitialContents.default.resourceType =
        D3D12ResourceType.Resource_Unknown ∧
      D3D12ResourceType.Resource_DescriptorHeap ≠
        D3D12ResourceType.Resource_Unknown ∧
      (D3D12InitialContents.ofDescriptors d n).tag =
        D3D12InitialContentsTag.Copy ∧
      (D3D12InitialContents.ofDescriptorHeap r).tag =
        D3D12InitialContentsTag.Copy ∧
      (D3D12InitialContents.ofResource r').tag =
        D3D12InitialContentsTag.Copy ∧
      (D3D12InitialContents.ofTag tg).tag = tg ∧
      D3D12InitialContents.default.tag = D3D12InitialContentsTag.Copy :=
  ⟨rfl, rfl, rfl, rfl, rfl, by decide, rfl, rfl, rfl, rfl, rfl⟩

/-! ## C5: dependency-closure chunk collection -/

theorem insertCore_succ {n : Nat} (g : RecordGraph n) (f : Nat) (r : Fin n)
    (s : InsertState n) :
    insertCore g (f + 1) r s =
      if r ∈ s.written then
        insertParents g f (g.parents r) ⟨insert r s.written, s.recordlist⟩
      else
        ⟨(insertParents g f (g.parents r) ⟨insert r s.written, s.recordlist⟩).written,
          (insertParents g f (g.parents r)
              ⟨insert r s.written, s.recordlist⟩).recordlist ++ [r]⟩ := by
  rw [insertCore]

theorem insertParents_nil {n : Nat} (g : RecordGraph n) (f : Nat)
    (s : InsertState n) : insertParents g f [] s = s := by
  rw [insertParents]

theorem insertParents_cons {n : Nat} (g : RecordGraph n) (f : Nat) (p : Fin n)
    (ps : List (Fin n)) (s : InsertState n) :
    insertParents g f (p :: ps) s =
      if p ∈ s.written then insertParents g f ps s
      else insertParents g f ps (insertCore g f p s) := by
  rw [insertParents]

theorem reaches_trans_parent {n : Nat} {g : RecordGraph n} {x r p : Fin n}
    (hp : p ∈ g.parents r) (hxr : Reaches g x r) : Reaches g x p := by
  induction hxr with
  | refl _ => exact Reaches.step hp (Reaches.refl p)
  | step hq _ ih => exact Reaches.step hq (ih hp)

theorem parentsBeforeAux_append {n : Nat} (g : RecordGraph n) (r : Fin n) :
    ∀ (l seen : List (Fin n)), ParentsBeforeAux g seen l →
      (∀ p ∈ g.parents r, p ∈ seen ++ l) →
      ParentsBeforeAux g seen (l ++ [r])
  | [], seen, _, hp =>
      ⟨fun p hpp => by simpa using hp p hpp, trivial⟩
  | x :: rest, seen, hpb, hp => by
      refine ⟨hpb.1, parentsBeforeAux_append g r rest (seen ++ [x]) hpb.2 ?_⟩
      intro p hpp
      have := hp p hpp
      simp only [List.append_assoc, List.singleton_append, List.mem_append,
        List.mem_cons] at this ⊢
      tauto

/-- The combined specification of `insertCore` and `insertParents`, proved
by induction on the fuel: provided the fuel exceeds the number of unmarked
records (plus one, plus one more when the call's own record is already
marked — which only the outermost call can be), an `Insert` call preserves
the shared-`recordlist` invariant, only grows the written set, only appends
previously unwritten records, and marks its own record / every listed
parent. -/
theorem insert_spec {n : Nat} (g : RecordGraph n) (hacyc : Acyclic g) :
    ∀ fuel : Nat,
      (∀ (r : Fin n) (s : InsertState n) (G : Finset (Fin n)),
        n - s.written.card + (if r ∈ s.written then 2 else 1) ≤ fuel →
        StateInv g G s → (∀ x ∈ G, Reaches g x r) →
        StateInv g G (insertCore g fuel r s) ∧
          (∀ x ∈ s.written, x ∈ (insertCore g fuel r s).written) ∧
          (∃ t, (insertCore g fuel r s).recordlist = s.recordlist ++ t ∧
            ∀ x ∈ t, x ∉ s.written) ∧
          r ∈ (insertCore g fuel r s).written) ∧
      (∀ (l : List (Fin n)) (r : Fin n) (s : InsertState n) (G : Finset (Fin n)),
        (∀ p ∈ l, p ∈ g.parents r) →
        n - s.written.card + 1 ≤ fuel →
        StateInv g G s → (∀ x ∈ G, Reaches g x r) →
        StateInv g G (insertParents g fuel l s) ∧
          (∀ x ∈ s.written, x ∈ (insertParents g fuel l s).written) ∧
          (∃ t, (insertParents g fuel l s).recordlist = s.recordlist ++ t ∧
            ∀ x ∈ t, x ∉ s.written) ∧
          (∀ p ∈ l, p ∈ (insertParents g fuel l s).written)) := by
  intro fuel
  induction fuel with
  | zero =>
      constructor
      · intro r s G hfuel _ _
        exfalso
        split at hfuel <;> omega
      · intro l r s G _ hfuel _ _
        exfalso
        omega
  | succ f ih =>
      have hcore : ∀ (r : Fin n) (s : InsertState n) (G : Finset (Fin n)),
          n - s.written.card + (if r ∈ s.written then 2 else 1) ≤ f + 1 →
          StateInv g G s → (∀ x ∈ G, Reaches g x r) →
          StateInv g G (insertCore g (f + 1) r s) ∧
            (∀ x ∈ s.written, x ∈ (insertCore g (f + 1) r s).written) ∧
            (∃ t, (insertCore g (f + 1) r s).recordlist = s.recordlist ++ t ∧
              ∀ x ∈ t, x ∉ s.written) ∧
            r ∈ (insertCore g (f + 1) r s).written := by
        intro r s G hfuel hinv hgray
        obtain ⟨hwr, hnd, hord⟩ := hinv
        have hinv1 : StateInv g (insert r G) ⟨insert r s.written, s.recordlist⟩ := by
          refine ⟨fun x => ?_, hnd, hord⟩
          simp only [Finset.mem_insert]
          constructor
          · rintro (he | hx)
            · exact Or.inl (Or.inl he)
            · rcases (hwr x).mp hx with hg | ho
              · exact Or.inl (Or.inr hg)
              · exact Or.inr ho
          · rintro ((he | hg) | ho)
            · exact Or.inl he
            · exact Or.inr ((hwr x).mpr (Or.inl hg))
            · exact Or.inr ((hwr x).mpr (Or.inr ho))
        have hgray1 : ∀ x ∈ insert r G, Reaches g x r := by
          intro x hx
          rcases Finset.mem_insert.mp hx with he | hg
          · subst he; exact Reaches.refl x
          · exact hgray x hg
        have hfuel1 :
            n - (⟨insert r s.written, s.recordlist⟩ : InsertState n).written.card + 1 ≤ f := by
          by_cases hr : r ∈ s.written
          · rw [if_pos hr] at hfuel
            simp only [Finset.insert_eq_self.mpr hr]
            omega
          · rw [if_neg hr] at hfuel
            have hc1 : (insert r s.written).card = s.written.card + 1 :=
              Finset.card_insert_of_not_mem hr
            have hc2 : (insert r s.written).card ≤ n := by
              have := Finset.card_le_univ (insert r s.written)
              simpa using this
            simp only [hc1]
            omega
        obtain ⟨hinv2, hmono2, ⟨t, hout2, ht⟩, hps2⟩ :=
          ih.2 (g.parents r) r ⟨insert r s.written, s.recordlist⟩ (insert r G)
            (fun p hp => hp) hfuel1 hinv1 hgray1
        rw [insertCore_succ]
        by_cases hr : r ∈ s.written
        · rw [if_pos hr]
          obtain ⟨hwr2, hnd2, hord2⟩ := hinv2
          refine ⟨⟨fun x => ?_, hnd2, hord2⟩, ?_, ⟨t, hout2, ?_⟩, ?_⟩
          · constructor
            · intro hx
              rcases (hwr2 x).mp hx with hg | ho
              · rcases Finset.mem_insert.mp hg with he | hg'
                · subst he
                  rcases (hwr x).mp hr with hg'' | ho''
                  · exact Or.inl hg''
                  · exact Or.inr (hout2 ▸ List.mem_append_left t ho'')
                · exact Or.inl hg'
              · exact Or.inr ho
            · rintro (hg | ho)
              · exact (hwr2 x).mpr (Or.inl (Finset.mem_insert_of_mem hg))
              · exact (hwr2 x).mpr (Or.inr ho)
          · intro x hx
            exact hmono2 x (Finset.mem_insert_of_mem hx)
          · intro x hx
            intro hxs
            exact ht x hx (Finset.mem_insert_of_mem hxs)
          · exact hmono2 r (Finset.mem_insert_self r s.written)
        · rw [if_neg hr]
          obtain ⟨hwr2, hnd2, hord2⟩ := hinv2
          have hrout : r ∉ (insertParents g f (g.parents r)
              ⟨insert r s.written, s.recordlist⟩).recordlist := by
            rw [hout2]
            intro hmem
            rcases List.mem_append.mp hmem with ho | hto
            · exact hr ((hwr r).mpr (Or.inr ho))
            · exact ht r hto (Finset.mem_insert_self r s.written)
          have hparentsout : ∀ p ∈ g.parents r,
              p ∈ (insertParents g f (g.parents r)
                ⟨insert r s.written, s.recordlist⟩).recordlist := by
            intro p hp
            have hpw := hps2 p hp
            rcases (hwr2 p).mp hpw with hg | ho
            · rcases Finset.mem_insert.mp hg with he | hg'
              · subst he
                exact absurd (Reaches.refl p) (hacyc p p hp)
              · exact absurd (hgray p hg') (hacyc r p hp)
            · exact ho
          refine ⟨⟨fun x => ?_, ?_, ?_⟩, ?_, ⟨t ++ [r], ?_, ?_⟩, ?_⟩
          · constructor
            · intro hx
              rcases (hwr2 x).mp hx with hg | ho
              · rcases Finset.mem_insert.mp hg with he | hg'
                · subst he
                  exact Or.inr (List.mem_append_right _ (List.mem_singleton_self x))
                · exact Or.inl hg'
              · exact Or.inr (List.mem_append_left _ ho)
            · rintro (hg | ho)
              · exact (hwr2 x).mpr (Or.inl (Finset.mem_insert_of_mem hg))
              · rcases List.mem_append.mp ho with ho' | he
                · exact (hwr2 x).mpr (Or.inr ho')
                · rw [List.mem_singleton.mp he]
                  exact hmono2 r (Finset.mem_insert_self r s.written)
          · rw [List.nodup_append]
            exact ⟨hnd2, List.nodup_singleton r,
              fun a ha hb => hrout (List.mem_singleton.mp hb ▸ ha)⟩
          · exact parentsBeforeAux_append g r _ [] hord2
              (fun p hp => by simpa using hparentsout p hp)
          · intro x hx
            exact hmono2 x (Finset.mem_insert_of_mem hx)
          · rw [hout2, List.append_assoc]
          · intro x hx
            rcases List.mem_append.mp hx with hto | he
            · intro hxs
              exact ht x hto (Finset.mem_insert_of_mem hxs)
            · rw [List.mem_singleton.mp he]
              exact hr
          · exact hmono2 r (Finset.mem_insert_self r s.written)
      refine ⟨hcore, ?_⟩
      intro l
      induction l with
      | nil =>
          intro r s G _ _ hinv _
          rw [insertParents_nil]
          exact ⟨hinv, fun x hx => hx, ⟨[], (List.append_nil _).symm, by simp⟩,
            by simp⟩
      | cons p ps ihl =>
          intro r s G hl hfuel hinv hgray
          rw [insertParents_cons]
          by_cases hps : p ∈ s.written
          · rw [if_pos hps]
            obtain ⟨hinv', hmono', hext', hall'⟩ :=
              ihl r s G (fun q hq => hl q (List.mem_cons_of_mem p hq)) hfuel hinv
                hgray
            refine ⟨hinv', hmono', hext', ?_⟩
            intro q hq
            rcases List.mem_cons.mp hq with he | hq'
            · subst he; exact hmono' q hps
            · exact hall' q hq'
          · rw [if_neg hps]
            have hpr : p ∈ g.parents r := hl p (List.mem_cons_self p ps)
            have hgrayp : ∀ x ∈ G, Reaches g x p := fun x hx =>
              reaches_trans_parent hpr (hgray x hx)
            have hfuelp :
                n - s.written.card + (if p ∈ s.written then 2 else 1) ≤ f + 1 := by
              rw [if_neg hps]; omega
            obtain ⟨hinvc, hmonoc, ⟨t1, houtc, htc⟩, hpc⟩ :=
              hcore p s G hfuelp hinv hgrayp
            have hfuelc :
                n - (insertCore g (f + 1) p s).written.card + 1 ≤ f + 1 := by
              have hsub : s.written.card ≤ (insertCore g (f + 1) p s).written.card :=
                Finset.card_le_card (fun x hx => hmonoc x hx)
              omega
            obtain ⟨hinv2, hmono2, ⟨t2, hout2, ht2⟩, hall2⟩ :=
              ihl r (insertCore g (f + 1) p s) G
                (fun q hq => hl q (List.mem_cons_of_mem p hq)) hfuelc hinvc hgray
            refine ⟨hinv2, ?_, ⟨t1 ++ t2, ?_, ?_⟩, ?_⟩
            · intro x hx
              exact hmono2 x (hmonoc x hx)
            · rw [hout2, houtc, List.append_assoc]
            · intro x hx
              rcases List.mem_append.mp hx with h1 | h2
              · exact htc x h1
              · intro hxs
                exact ht2 x h2 (hmonoc x hxs)
            · intro q hq
              rcases List.mem_cons.mp hq with he | hq'
              · subst he
                exact hmono2 q hpc
              · exact hall2 q hq'

/-- C5 (confirmed): for every acyclic parent graph and every sequence of
top-level `Insert` calls into one shared `recordlist` (starting with all
`DataWritten` flags unset), each record's chunks appear in the result at
most once — a record contributes its chunk batch at most once even when
reached over several paths, because `DataWritten` is set exactly once —
and every inserted record has each of its parents' chunks inserted before
its own. -/
theorem insert_dependency_closure {n : Nat} (g : RecordGraph n)
    (hacyc : Acyclic g) (calls : List (Fin n)) :
    (runInserts g calls).recordlist.Nodup ∧
      ParentsBefore g (runInserts g calls).recordlist := by
  suffices h : ∀ (calls : List (Fin n)) (s : InsertState n),
      StateInv g ∅ s →
      StateInv g ∅ (calls.foldl (fun s r => D3D12ResourceRecord.Insert g r s) s) by
    have h0 : StateInv g ∅ (⟨∅, []⟩ : InsertState n) := by
      refine ⟨fun x => ?_, List.nodup_nil, trivial⟩
      simp
    obtain ⟨_, hnd, hord⟩ := h calls ⟨∅, []⟩ h0
    exact ⟨hnd, hord⟩
  intro calls
  induction calls with
  | nil => intro s hinv; exact hinv
  | cons c cs ihc =>
      intro s hinv
      rw [List.foldl_cons]
      apply ihc
      have hfuel : n - s.written.card + (if c ∈ s.written then 2 else 1) ≤ n + 2 := by
        split <;> omega
      exact ((insert_spec g hacyc (n + 2)).1 c s ∅ hfuel hinv
        (fun x hx => absurd hx (Finset.not_mem_empty x))).1

theorem g2_reaches_of_zero (q : Fin 2) (h : Reaches g2 0 q) : q = 0 := by
  cases h with
  | refl => rfl
  | step hq _ => simp [g2] at hq

theorem g2_acyclic : Acyclic g2 := by
  intro r p hp hre
  fin_cases r
  · simp [g2] at hp
  · simp [g2] at hp
    subst hp
    have := g2_reaches_of_zero _ hre
    simp at this

/-- Witness for C5: two `Insert` calls on record 1 of the two-record graph
(record 1's parent is record 0). -/
theorem insert_dependency_closure_witness :
    (runInserts g2 [1, 1]).recordlist.Nodup ∧
      ParentsBefore g2 (runInserts g2 [1, 1]).recordlist :=
  insert_dependency_closure g2 g2_acyclic [1, 1]
